import Mathlib

/-
  Verification development for the molmod repository.

  Part A embeds the file readers present in the source tree
  (lib/io/fchk.py and molmod/io/lammps.py) over lists of lines, with
  Python string semantics made explicit.  Part B models the minimizer
  subsystem from the specification (its code is not in the tree; only
  the test harness test/minimizer.py is).  Real values are embedded as
  rationals so that every definition is executable; the golden-section
  ratio and root-mean-square comparisons, which involve irrational
  numbers, appear only in theorem statements over the reals.
-/

namespace Molmod

/-! ## Python string primitives -/

/-- Python whitespace test used by str.split() with no arguments. -/
def pyIsSpace (c : Char) : Bool :=
  c == ' ' || c == '\n' || c == '\t' || c == '\r'

/-- Python str.strip() on a character list: whitespace removed from
both ends. -/
def stripChars (cs : List Char) : List Char :=
  ((cs.dropWhile pyIsSpace).reverse.dropWhile pyIsSpace).reverse

/-- Python str.strip(). -/
def pyStrip (s : String) : String := String.mk (stripChars s.data)

/-- Python slicing s[:n]. -/
def pyTake (s : String) (n : ℕ) : String := String.mk (s.data.take n)

/-- Python slicing s[n:]. -/
def pyDrop (s : String) (n : ℕ) : String := String.mk (s.data.drop n)

/-- Python slicing s[:-1]. -/
def pyDropEnd (s : String) : String := String.mk s.data.dropLast

/-- Splitting a character list on whitespace runs, accumulating the
current word reversed. -/
def wordsAux : List Char → List Char → List (List Char)
  | [], acc => if acc = [] then [] else [acc.reverse]
  | c :: cs, acc =>
    if pyIsSpace c then
      if acc = [] then wordsAux cs [] else acc.reverse :: wordsAux cs []
    else wordsAux cs (c :: acc)

/-- Python str.split() with no arguments: split on whitespace runs,
discarding empty pieces. -/
def pySplit (s : String) : List String :=
  (wordsAux s.data []).map String.mk

/-- A nonempty all-digit character list parsed as a natural number. -/
def digitsToNat (cs : List Char) : Option ℕ :=
  if cs ≠ [] ∧ cs.all Char.isDigit then some (cs.foldl (fun a c => a * 10 + (c.toNat - 48)) 0)
  else none

/-- Python int(s): strip surrounding whitespace, optional sign, digits. -/
def pyInt (s : String) : Option Int :=
  match stripChars s.data with
  | '-' :: rest => (digitsToNat rest).map (fun n => -(n : Int))
  | '+' :: rest => (digitsToNat rest).map (fun n => (n : Int))
  | t => (digitsToNat t).map (fun n => (n : Int))

/-- Value of a list of decimal digit characters. -/
def digitsVal (ds : List Char) : ℕ :=
  ds.foldl (fun a c => a * 10 + (c.toNat - 48)) 0

/-- Split a character list into its longest decimal-digit prefix and the rest. -/
def splitDigits (cs : List Char) : List Char × List Char :=
  (cs.takeWhile Char.isDigit, cs.dropWhile Char.isDigit)

/-- Exponent part of a Python float literal: [eE][+-]?digits, consuming
the whole remainder.  Returns none when malformed. -/
def pyFloatExp (cs : List Char) : Option Int :=
  match cs with
  | [] => some 0
  | c :: rest =>
    if c == 'e' || c == 'E' then
      match rest with
      | '-' :: ds =>
        let p := splitDigits ds
        if p.1 ≠ [] ∧ p.2 = [] then some (-(digitsVal p.1 : Int)) else none
      | '+' :: ds =>
        let p := splitDigits ds
        if p.1 ≠ [] ∧ p.2 = [] then some (digitsVal p.1 : Int) else none
      | ds =>
        let p := splitDigits ds
        if p.1 ≠ [] ∧ p.2 = [] then some (digitsVal p.1 : Int) else none
    else none

/-- Unsigned mantissa with optional exponent of a Python float literal:
digits [. digits] or . digits, then the exponent part. -/
def pyFloatCore (cs : List Char) : Option ℚ :=
  let ip := splitDigits cs
  let fracAndRest : Option (List Char) × List Char :=
    match ip.2 with
    | '.' :: rest => (some (splitDigits rest).1, (splitDigits rest).2)
    | _ => (none, ip.2)
  let fp := fracAndRest.1.getD []
  if ip.1 = [] ∧ fp = [] then none
  else
    match pyFloatExp fracAndRest.2 with
    | none => none
    | some e =>
      some (((digitsVal ip.1 : ℚ) + (digitsVal fp : ℚ) / (10 : ℚ) ^ fp.length)
        * (10 : ℚ) ^ e)

/-- Python float(s) restricted to finite decimal literals: strip
whitespace, optional sign, mantissa, optional exponent. -/
def pyFloat (s : String) : Option ℚ :=
  match stripChars s.data with
  | '-' :: rest => (pyFloatCore rest).map (fun q => -q)
  | '+' :: rest => pyFloatCore rest
  | t => pyFloatCore t

/-- Python file.readline(): the next line, or the empty string at the
end of the file.  Lines carry their trailing newline as in Python. -/
def readline : List String → String × List String
  | [] => ("", [])
  | l :: ls => (l, ls)

instance {ε δ : Type} [DecidableEq ε] [DecidableEq δ] : DecidableEq (Except ε δ) := fun x y =>
  match x, y with
  | .ok a, .ok b =>
    if h : a = b then isTrue (by rw [h]) else isFalse (fun hc => h (Except.ok.inj hc))
  | .error a, .error b =>
    if h : a = b then isTrue (by rw [h]) else isFalse (fun hc => h (Except.error.inj hc))
  | .ok _, .error _ => isFalse (fun hc => Except.noConfusion hc)
  | .error _, .ok _ => isFalse (fun hc => Except.noConfusion hc)

/-! ## Formatted checkpoint reader (lib/io/fchk.py) -/

/-- Python exceptions that can escape the readers: FileFormatError with
its message, and the builtin ValueError / IndexError / StopIteration. -/
inductive PyErr where
  | fileFormatError (msg : String)
  | valueError
  | indexError
  | stopIteration
deriving DecidableEq

/-- A value stored in FCHKFile.fields: an int or float scalar, or an
int or float numpy array (floats embedded as rationals). -/
inductive FValue where
  | iScalar (n : Int)
  | rScalar (q : ℚ)
  | iArray (ns : List Int)
  | rArray (qs : List ℚ)
deriving DecidableEq

/-- The fields dictionary, in insertion order. -/
abbrev Fields := List (String × FValue)

/-- Python dict assignment self.fields[label] = value: overwrite in
place when the key exists, append otherwise. -/
def setField (fs : Fields) (k : String) (v : FValue) : Fields :=
  if fs.any (fun p => p.1 = k) then fs.map (fun p => if p.1 = k then (k, v) else p)
  else fs ++ [(k, v)]

/-- Python self.fields.get(label) / membership test. -/
def getField (fs : Fields) (k : String) : Option FValue :=
  (fs.find? (fun p => p.1 = k)).map (fun p => p.2)

/-- Outcome of the header-scanning loop of read_field (fchk.py lines
74-95): stop (read_field returns False), skip (label filtered out,
read_field returns True without storing a field), or a sane header
found with its datatype, label, split words and the line's suffix from
column 43 (kept for error messages). -/
inductive HeaderScan where
  | stop (lines : List String)
  | skip (labels : Option (List String)) (lines : List String)
  | found (isInt : Bool) (label : String) (words : List String)
      (rest43 : String) (labels : Option (List String)) (lines : List String)
deriving DecidableEq

/-- The while datatype is None loop of read_field: read lines until a
header with datatype marker I or R appears, applying the field_labels
filter per line; words[0] on an empty split raises IndexError. -/
def scanHeader (labels : Option (List String)) :
    List String → Except PyErr HeaderScan
  | [] => .ok (.stop [])
  | line :: rest =>
    let label := pyStrip (pyTake line 43)
    if labels.isSome ∧ (labels.getD []).isEmpty then .ok (.stop rest)
    else if labels.isSome ∧ label ∉ labels.getD [] then .ok (.skip labels rest)
    else
      let labels2 := labels.map (fun ls => ls.erase label)
      let words := pySplit (pyDrop line 43)
      match words with
      | [] => .error .indexError
      | w :: _ =>
        if w = "I" then .ok (.found true label words (pyDrop line 43) labels2 rest)
        else if w = "R" then .ok (.found false label words (pyDrop line 43) labels2 rest)
        else scanHeader labels2 rest

/-- One line of an N= array body (fchk.py lines 113-115): parse each
word (a ValueError, reported as none, makes read_field skip the whole
field), assign into the array (IndexError past its length). -/
def fillWords (parse : String → Option β) (len : ℕ) :
    List String → List β → Except PyErr (Option (List β))
  | [], acc => .ok (some acc)
  | w :: ws, acc =>
    match parse w with
    | none => .ok none
    | some v =>
      if len ≤ acc.length then .error .indexError
      else fillWords parse len ws (acc ++ [v])

/-- The while counter < length loop of read_field (fchk.py lines
109-115): read lines and fill the array; the empty readline result at
end of file raises FileFormatError. -/
def fillArray (parse : String → Option β) (len : ℕ) (filename : String) :
    List String → List β → Except PyErr (Option (List β) × List String)
  | [], acc =>
    if len ≤ acc.length then .ok (some acc, [])
    else .error (.fileFormatError ("Unexpected end of formatted checkpoint file " ++ filename))
  | l :: ls, acc =>
    if len ≤ acc.length then .ok (some acc, l :: ls)
    else
      match fillWords parse len (pySplit l) acc with
      | .error e => .error e
      | .ok none => .ok (none, ls)
      | .ok (some acc2) => fillArray parse len filename ls acc2

/-- read_field (fchk.py lines 72-122): returns the Bool Python returns,
with the updated fields dictionary, remaining field_labels and file
lines; FileFormatError on a malformed N= header, an unexpected word
count or a truncated array, ValueError on a malformed array length. -/
def readField (filename : String) (labels : Option (List String)) (fields : Fields)
    (lines : List String) : Except PyErr (Bool × Fields × Option (List String) × List String) :=
  match scanHeader labels lines with
  | .error e => .error e
  | .ok (.stop rest) => .ok (false, fields, labels, rest)
  | .ok (.skip labels2 rest) => .ok (true, fields, labels2, rest)
  | .ok (.found isInt label words rest43 labels2 rest) =>
    if words.length = 2 then
      if isInt then
        match pyInt (words.getD 1 "") with
        | none => .ok (true, fields, labels2, rest)
        | some n => .ok (true, setField fields label (.iScalar n), labels2, rest)
      else
        match pyFloat (words.getD 1 "") with
        | none => .ok (true, fields, labels2, rest)
        | some q => .ok (true, setField fields label (.rScalar q), labels2, rest)
    else if words.length = 3 then
      if words.getD 1 "" ≠ "N=" then
        .error (.fileFormatError ("Unexpected line in formatted checkpoint file " ++ filename
          ++ "\n" ++ pyDropEnd rest43))
      else
        match pyInt (words.getD 2 "") with
        | none => .error .valueError
        | some len =>
          if len < 0 then .error .valueError
          else if isInt then
            match fillArray pyInt len.toNat filename rest [] with
            | .error e => .error e
            | .ok (none, rest2) => .ok (true, fields, labels2, rest2)
            | .ok (some vs, rest2) => .ok (true, setField fields label (.iArray vs), labels2, rest2)
          else
            match fillArray pyFloat len.toNat filename rest [] with
            | .error e => .error e
            | .ok (none, rest2) => .ok (true, fields, labels2, rest2)
            | .ok (some vs, rest2) => .ok (true, setField fields label (.rArray vs), labels2, rest2)
    else
      .error (.fileFormatError ("Unexpected line in formatted checkpoint file " ++ filename
        ++ "\n" ++ pyDropEnd rest43))

/-- The while read_field(f) loop of _read (fchk.py lines 132-133).  The
accumulated fields dictionary survives an exception, as the Python
object attribute does; the fuel bound is immaterial because each
True-returning call consumes at least one line. -/
def readLoop (filename : String) : ℕ → Option (List String) → Fields → List String →
    Fields × Option PyErr
  | 0, _, fields, _ => (fields, none)
  | fuel + 1, labels, fields, lines =>
    match readField filename labels fields lines with
    | .error e => (fields, some e)
    | .ok (false, fields2, _, _) => (fields2, none)
    | .ok (true, fields2, labels2, rest) => readLoop filename fuel labels2 fields2 rest

/-- What _read leaves on the object: title, the (command, lot, basis)
triple when the second line parsed, the fields read so far, and the
exception it raised, if any. -/
structure FchkRaw where
  title : String
  meta : Option (String × String × String)
  fields : Fields
  err : Option PyErr
deriving DecidableEq

/-- _read (fchk.py lines 64-135): title from the first line, three
words from the second (else FileFormatError), then the field loop. -/
def fchkRead (filename : String) (labels : Option (List String)) (lines : List String) :
    FchkRaw :=
  let p1 := readline lines
  let title := pyStrip (pyDropEnd p1.1)
  let p2 := readline p1.2
  let ws := pySplit p2.1
  if ws.length = 3 then
    let r := readLoop filename (p2.2.length + 1) labels [] p2.2
    ⟨title, some (ws.getD 0 "", ws.getD 1 "", ws.getD 2 ""), r.1, r.2⟩
  else
    ⟨title, none, [], some (.fileFormatError "Second line of FCHKFile is incorrect. Expecting three words.")⟩

/-- The Molecule object built by _analyze. -/
structure Mol where
  numbers : List Int
  coordinates : List (List ℚ)
  mtitle : String
deriving DecidableEq

/-- numpy.reshape(qs, (-1, 3)) on a flat array of length divisible by 3. -/
def chunk3 : List ℚ → List (List ℚ)
  | a :: b :: c :: rest => [a, b, c] :: chunk3 rest
  | [] => []
  | rest => [rest]

/-- _analyze (fchk.py lines 137-144): build a molecule when both the
atomic numbers and cartesian coordinates fields are present.  A shape
that numpy.reshape or Molecule rejects (a non-array field, or a length
not divisible by 3) raises ValueError. -/
def analyze (fields : Fields) (title : String) : Except PyErr (Option Mol) :=
  match getField fields "Atomic numbers", getField fields "Current cartesian coordinates" with
  | some (.iArray ns), some (.rArray qs) =>
    if qs.length % 3 = 0 then .ok (some ⟨ns, chunk3 qs, title⟩)
    else .error .valueError
  | some _, some _ => .error .valueError
  | _, _ => .ok none

/-- The FCHKFile object after __init__. -/
structure FchkObj where
  title : String
  meta : Option (String × String × String)
  fields : Fields
  molecule : Option Mol
deriving DecidableEq

/-- __init__'s additions to field_labels (fchk.py lines 52-55):
field_labels.add of the two fields _analyze needs. -/
def addDefaultLabels (labels : Option (List String)) : Option (List String) :=
  labels.map (fun ls =>
    let l1 := if "Atomic numbers" ∈ ls then ls else ls ++ ["Atomic numbers"]
    if "Current cartesian coordinates" ∈ l1 then l1 else l1 ++ ["Current cartesian coordinates"])

/-- FCHKFile.__init__ (fchk.py lines 39-62): run _read, suppress a
FileFormatError when ignore_errors is set (any other exception
propagates), then run _analyze on whatever fields were read. -/
def fchkInit (filename : String) (lines : List String) (ignoreErrors : Bool)
    (fieldLabels : Option (List String)) : Except PyErr FchkObj :=
  let raw := fchkRead filename (addDefaultLabels fieldLabels) lines
  match raw.err with
  | some (.fileFormatError m) =>
    if ignoreErrors then
      match analyze raw.fields raw.title with
      | .error e => .error e
      | .ok mol => .ok ⟨raw.title, raw.meta, raw.fields, mol⟩
    else .error (.fileFormatError m)
  | some e => .error e
  | none =>
    match analyze raw.fields raw.title with
    | .error e => .error e
    | .ok mol => .ok ⟨raw.title, raw.meta, raw.fields, mol⟩

/-- One row of the get_hessian loop (fchk.py lines 199-202): the two
numpy slice assignments result[row, :row+1] = fc[counter:counter+row+1]
and result[:row+1, row] = fc[counter:counter+row+1]. -/
def hessStep (fc : List ℚ) (M : ℕ → ℕ → ℚ) (row counter : ℕ) : ℕ → ℕ → ℚ :=
  fun i j =>
    if j = row ∧ i ≤ row then fc.getD (counter + i) 0
    else if i = row ∧ j ≤ row then fc.getD (counter + j) 0
    else M i j

/-- get_hessian (fchk.py lines 193-203): start from a zero 3N-by-3N
matrix and fill it row by row from the flat force-constant array,
advancing the counter by row+1 each row. -/
def getHessian (N : ℕ) (fc : List ℚ) : ℕ → ℕ → ℚ :=
  ((List.range (3 * N)).foldl
    (fun (p : (ℕ → ℕ → ℚ) × ℕ) row => (hessStep fc p.1 row p.2, p.2 + row + 1))
    (fun _ _ => 0, 0)).1

/-! ## LAMMPS dump reader (molmod/io/lammps.py) -/

/-- The __init__ scan of LAMMPSDumpReader (lammps.py lines 56-67): find
the first line ITEM: NUMBER OF ATOMS and parse the integer after it.
Running off the end of the file anywhere in the scan is the
StopIteration the outer try catches. -/
def findNumAtoms : List String → Except PyErr Int
  | [] => .error (.fileFormatError "Could not find line 'ITEM: NUMBER OF ATOMS'.")
  | l :: ls =>
    if l = "ITEM: NUMBER OF ATOMS\n" then
      match ls with
      | [] => .error (.fileFormatError "Could not find line 'ITEM: NUMBER OF ATOMS'.")
      | l2 :: _ =>
        match pyInt l2 with
        | some n => .ok n
        | none => .error (.fileFormatError
            ("Could not read the number of atoms. Expected an integer. Got '" ++ l2 ++ "'"))
    else findNumAtoms ls

/-- The inner loop of an atom line (lammps.py lines 109-111): the first
k entries of words, parsed as floats; fewer raise IndexError and a bad
literal raises ValueError, as in Python. -/
def takeFloats : List String → ℕ → Except PyErr (List ℚ)
  | _, 0 => .ok []
  | [], _ + 1 => .error .indexError
  | w :: ws, k + 1 =>
    match pyFloat w with
    | none => .error .valueError
    | some q =>
      match takeFloats ws k with
      | .error e => .error e
      | .ok qs => .ok (q :: qs)

/-- fields[j].append(...) for every column at once. -/
def appendCols (cols : List (List ℚ)) (vals : List ℚ) : List (List ℚ) :=
  List.zipWith (fun col v => col ++ [v]) cols vals

/-- The atom loop of _read_frame (lammps.py lines 107-111): one line
per atom, dropping the first word, appending the next k floats to the
k field columns. -/
def readAtomLines (k : ℕ) : ℕ → List String → List (List ℚ) →
    Except PyErr (List (List ℚ) × List String)
  | 0, lines, cols => .ok (cols, lines)
  | c + 1, lines, cols =>
    match lines with
    | [] => .error .stopIteration
    | l :: ls =>
      match takeFloats ((pySplit l).drop 1) k with
      | .error e => .error e
      | .ok vals => readAtomLines k c ls (appendCols cols vals)

/-- A frame as _read_frame returns it: the step number and the unit
scaled field arrays. -/
structure LFrame where
  step : Int
  fields : List (List ℚ)
deriving DecidableEq

/-- The box-boundary skip of _read_frame (lammps.py lines 99-100). -/
def skipLines : ℕ → List String → Except PyErr (List String)
  | 0, ls => .ok ls
  | _ + 1, [] => .error .stopIteration
  | n + 1, _ :: ls => skipLines n ls

/-- _read_frame (lammps.py lines 71-114): check the section headers,
parse the step and the per-frame atom count, reject a count different
from the construction-time num_atoms, skip the box, and read num_atoms
atom lines. -/
def readFrame (units : List ℚ) (numAtoms : Int) (lines : List String) :
    Except PyErr (LFrame × List String) :=
  match lines with
  | [] => .error .stopIteration
  | l1 :: r1 =>
    if l1 ≠ "ITEM: TIMESTEP\n" then
      .error (.fileFormatError "Expecting line 'ITEM: TIMESTEP' at the beginning of a time frame.")
    else
      match r1 with
      | [] => .error .stopIteration
      | l2 :: r2 =>
        match pyInt l2 with
        | none => .error (.fileFormatError
            ("Could not read the step number. Expected an integer. Got '" ++ pyDropEnd l2 ++ "'"))
        | some step =>
          match r2 with
          | [] => .error .stopIteration
          | l3 :: r3 =>
            if l3 ≠ "ITEM: NUMBER OF ATOMS\n" then
              .error (.fileFormatError "Expecting line 'ITEM: NUMBER OF ATOMS'.")
            else
              match r3 with
              | [] => .error .stopIteration
              | l4 :: r4 =>
                match pyInt l4 with
                | none => .error (.fileFormatError
                    ("Could not read the number of atoms. Expected an integer. Got '"
                      ++ pyDropEnd l4 ++ "'"))
                | some m =>
                  if m ≠ numAtoms then
                    .error (.fileFormatError "A variable number of atoms is not supported.")
                  else
                    match skipLines 4 r4 with
                    | .error e => .error e
                    | .ok r5 =>
                      match r5 with
                      | [] => .error .stopIteration
                      | l6 :: r6 =>
                        if l6 ≠ "ITEM: ATOMS\n" then
                          .error (.fileFormatError "Expecting line 'ITEM: ATOMS'.")
                        else
                          match readAtomLines units.length numAtoms.toNat r6
                              (units.map (fun _ => [])) with
                          | .error e => .error e
                          | .ok (cols, rest) =>
                            .ok (⟨step, List.zipWith (fun col u => col.map (fun q => q * u)) cols units⟩,
                              rest)

/-! ## Minimizer subsystem

The minimizer code (molmod/minimizer.py) is not in the source tree;
only its test harness test/minimizer.py is.  The definitions below are
therefore modelled from the specification, faithful to its words, over
an arbitrary linear ordered field so that every definition stays
executable; the golden ratio, which is irrational, enters only in
theorem statements over the reals. -/

section MinimizerModel

variable {α : Type} [LinearOrderedField α]

/-- Modelled from the spec: the point x with eps added to coordinate i
(the displacement along the i-th unit vector used by the Numerical
Differentiator, missing from the tree with minimizer.py). -/
def addUnit (x : List α) (i : ℕ) (eps : α) : List α :=
  x.set i (x.getD i 0 + eps)

/-- Modelled from the spec: the Numerical Differentiator
gradient(objective, x, epsilon), symmetric central finite differences
per coordinate, g_i = (f(x + eps e_i) - f(x - eps e_i)) / (2 eps). -/
def numGradient (f : List α → α) (x : List α) (eps : α) : List α :=
  (List.range x.length).map (fun i =>
    (f (addUnit x i eps) - f (addUnit x i (-eps))) / (2 * eps))

/-- One objective evaluation with its running call count. -/
def evalCount (f : List α → α) (x : List α) (c : ℕ) : α × ℕ := (f x, c + 1)

/-- Modelled from the spec: the Numerical Differentiator instrumented
with an objective-evaluation counter, to state its documented cost of
2n evaluations. -/
def numGradientCounted (f : List α → α) (x : List α) (eps : α) : List α × ℕ :=
  (List.range x.length).foldl
    (fun acc i =>
      let p := evalCount f (addUnit x i eps) acc.2
      let m := evalCount f (addUnit x i (-eps)) p.2
      (acc.1 ++ [(p.1 - m.1) / (2 * eps)], m.2))
    ([], 0)

/-- A separable quadratic objective with a known analytic gradient,
used for the round-trip property of the Numerical Differentiator. -/
def sepQuad (a b : List α) (c : α) (x : List α) : α :=
  c + ∑ i ∈ Finset.range x.length,
    (a.getD i 0 * x.getD i 0 ^ 2 + b.getD i 0 * x.getD i 0)

/-- The analytic gradient of sepQuad. -/
def anaGradSepQuad (a b x : List α) : List α :=
  (List.range x.length).map (fun i => 2 * a.getD i 0 * x.getD i 0 + b.getD i 0)

/-- Modelled from the spec: the StopCondition configuration of optional
thresholds grad_rms, grad_max, step_rms, step_max, max_iter, each
disabled when unset. -/
structure StopCondition (α : Type) where
  grad_rms : Option α
  grad_max : Option α
  step_rms : Option α
  step_max : Option α
  max_iter : Option ℕ

/-- Mean of the squares of a vector's components; its square root is
the RMS the Stop Condition compares. -/
def meanSq (v : List α) : α := (v.map (fun t => t * t)).sum / (v.length : α)

/-- Largest absolute component of a vector. -/
def maxAbs (v : List α) : α := (v.map (fun t => |t|)).foldr max 0

/-- Modelled from the spec: an enabled RMS threshold t is satisfied
when sqrt(meanSq v) < t, encoded without square roots as 0 < t and
meanSq v < t * t; a disabled threshold never contributes. -/
def rmsBelow (thr : Option α) (v : List α) : Bool :=
  match thr with
  | none => false
  | some t => decide (0 < t ∧ meanSq v < t * t)

/-- Modelled from the spec: an enabled max threshold is satisfied when
max |v_i| < t; a disabled threshold never contributes. -/
def maxBelow (thr : Option α) (v : List α) : Bool :=
  match thr with
  | none => false
  | some t => decide (maxAbs v < t)

/-- Componentwise difference x - y, the step vector x1 - x0. -/
def listSub (x y : List α) : List α := List.zipWith (fun a b => a - b) x y

/-- Modelled from the spec: the Stop Condition predicate, true when ANY
enabled threshold among grad_rms, grad_max, step_rms, step_max is
satisfied on the gradient g and the step dx = x1 - x0. -/
def stopConverged (sc : StopCondition α) (g dx : List α) : Bool :=
  rmsBelow sc.grad_rms g || maxBelow sc.grad_max g ||
  rmsBelow sc.step_rms dx || maxBelow sc.step_max dx

/-- Modelled from the spec: the failure signal taxonomy all three line
searches share - bracketing failure, iteration-budget exhaustion,
detected non-descent. -/
inductive LSDiag where
  | noBracket
  | budget
  | nonDescent
deriving DecidableEq

/-- Modelled from the spec: a line search either returns a step length
and a new value, or signals LineSearchFailure with a diagnostic. -/
inductive LSResult (α : Type) where
  | success (q : α) (f1 : α)
  | failure (d : LSDiag)
deriving DecidableEq

/-- A bracket around a one-dimensional minimum: three points with their
objective values. -/
structure Bracket (α : Type) where
  qa : α
  fa : α
  qb : α
  fb : α
  qc : α
  fc : α
deriving DecidableEq

/-- Modelled from the spec: when the first trial point is above the
starting value, halve the step until a point at or below it appears. -/
def goldenContract (fl : α → α) (f0 : α) : ℕ → α → Option (α × α)
  | 0, _ => none
  | n + 1, q =>
    let fq := fl q
    if fq ≤ f0 then some (q, fq) else goldenContract fl f0 n (q / 2)

/-- Modelled from the spec: expand outward by doubling while the
objective keeps decreasing; a bracket forms as soon as the value
increases, and exceeding qmax means no minimum was bracketed. -/
def goldenExpand (fl : α → α) (qmax : α) : ℕ → α × α → α × α → Option (Bracket α)
  | 0, _, _ => none
  | n + 1, a, b =>
    let qc := 2 * b.1
    if qmax < qc then none
    else
      let fc := fl qc
      if b.2 < fc then some ⟨a.1, a.2, b.1, b.2, qc, fc⟩
      else goldenExpand fl qmax n b (qc, fc)

/-- Modelled from the spec: phase (1) of the Golden-Section line
search - bracket a minimum by expanding outward from q = 0 until the
objective value increases on both sides or qmax is exceeded. -/
def goldenBracket (fl : α → α) (f0 q0 qmax : α) (fuel : ℕ) : Option (Bracket α) :=
  let f1 := fl q0
  if f1 ≤ f0 then goldenExpand fl qmax fuel (0, f0) (q0, f1)
  else
    match goldenContract fl f0 fuel (q0 / 2) with
    | none => none
    | some p => some ⟨0, f0, p.1, p.2, 2 * p.1, fl (2 * p.1)⟩

/-- Modelled from the spec: the interior point the golden-ratio
reduction evaluates, placed a fraction 1 - r into the larger of the two
subintervals of the bracket. -/
def goldenProbe (r : α) (br : Bracket α) : α :=
  if br.qb - br.qa < br.qc - br.qb then br.qb + (1 - r) * (br.qc - br.qb)
  else br.qb - (1 - r) * (br.qb - br.qa)

/-- Modelled from the spec: one golden-ratio interval reduction -
evaluate the objective at the probe point and keep the three points
surrounding the lower of the two middle values. -/
def goldenStep (fl : α → α) (r : α) (br : Bracket α) : Bracket α :=
  let qx := goldenProbe r br
  let fx := fl qx
  if br.qb - br.qa < br.qc - br.qb then
    if fx < br.fb then ⟨br.qb, br.fb, qx, fx, br.qc, br.fc⟩
    else ⟨br.qa, br.fa, br.qb, br.fb, qx, fx⟩
  else
    if fx < br.fb then ⟨br.qa, br.fa, qx, fx, br.qb, br.fb⟩
    else ⟨qx, fx, br.qb, br.fb, br.qc, br.fc⟩

/-- Modelled from the spec: phase (2) of the Golden-Section line
search - repeat the reduction until the bracket width falls below qtol
or the iteration budget is exhausted; also returns the number of
interior evaluations performed. -/
def goldenReduce (fl : α → α) (r qtol : α) : ℕ → Bracket α → Bracket α × ℕ
  | 0, br => (br, 0)
  | n + 1, br =>
    if br.qc - br.qa < qtol then (br, 0)
    else
      let p := goldenReduce fl r qtol n (goldenStep fl r br)
      (p.1, p.2 + 1)

/-- Modelled from the spec: the Golden-Section line search over the
one-dimensional restriction fl of the objective to the search line,
with fl 0 = f0; returns the middle of the final bracket, or signals
that no minimum was bracketed. -/
def goldenSearch (fl : α → α) (f0 : α) (r q0 qtol qmax : α) (maxIter : ℕ) : LSResult α :=
  match goldenBracket fl f0 q0 qmax maxIter with
  | none => .failure .noBracket
  | some br =>
    let p := goldenReduce fl r qtol maxIter br
    .success p.1.qb p.1.fb

/-- Clipping of a proposed step to the interval [-qmax, qmax]. -/
def clip (q qmax : α) : α := max (-qmax) (min q qmax)

/-- Modelled from the spec: the Newton line search iteration - Newton
step -fld(q)/curvature with the curvature from central differencing of
the directional derivative fld, clipped to [-qmax, qmax], with a
bounded step in the descent direction as the guarded fallback on
non-positive curvature, until the update is below qtol or the budget
runs out. -/
def newtonIter (fld : α → α) (eps qtol qmax : α) : ℕ → α → α
  | 0, q => q
  | n + 1, q =>
    let d1 := fld q
    let d2 := (fld (q + eps) - fld (q - eps)) / (2 * eps)
    let dq := if 0 < d2 then -d1 / d2 else if d1 ≤ 0 then qmax else -qmax
    let q1 := clip (q + dq) qmax
    if |q1 - q| < qtol then q1 else newtonIter fld eps qtol qmax n q1

/-- Modelled from the spec: the Newton line search, which must
guarantee f1 <= f0 modulo the numerical-noise allowance or signal a
LineSearchFailure. -/
def newtonSearch (fl fld : α → α) (f0 eps qtol qmax noise : α) (maxIter : ℕ) : LSResult α :=
  let q1 := newtonIter fld eps qtol qmax maxIter 0
  let f1 := fl q1
  if f1 ≤ f0 + noise then .success q1 f1 else .failure .nonDescent

/-- Modelled from the spec: the Newton-Gradient secant iteration on the
directional derivative fld, stopping when |fld| falls below qtol, the
secant degenerates, or the budget runs out. -/
def secantIter (fld : α → α) (qtol qmax : α) : ℕ → α → α → α
  | 0, _, q1 => q1
  | n + 1, q0, q1 =>
    let d0 := fld q0
    let d1 := fld q1
    if |d1| < qtol then q1
    else if d1 = d0 then q1
    else secantIter fld qtol qmax n q1 (clip (q1 - d1 * (q1 - q0) / (d1 - d0)) qmax)

/-- Modelled from the spec: the Newton-Gradient line search, with the
same descent guarantee as the other two strategies. -/
def newtonGSearch (fl fld : α → α) (f0 qinit qtol qmax noise : α) (maxIter : ℕ) : LSResult α :=
  let q1 := secantIter fld qtol qmax maxIter 0 qinit
  let f1 := fl q1
  if f1 ≤ f0 + noise then .success q1 f1 else .failure .nonDescent

/-- Modelled from the spec: the Minimizer Loop state machine states. -/
inductive MState where
  | INITIALIZED
  | ITERATING
  | CONVERGED
  | EXHAUSTED
  | FAILED
deriving DecidableEq

/-- Modelled from the spec: the minimizer result surface - final point,
value, gradient, terminal state tag, completed outer iterations, and
the number of line searches attempted. -/
structure MinResult (α : Type) where
  x : List α
  f : α
  g : List α
  state : MState
  iters : ℕ
  lsCalls : ℕ
deriving DecidableEq

/-- Modelled from the spec: what a line search hands back to the
Minimizer Loop - a new point, value and gradient, or a failure. -/
inductive StepOutcome (α : Type) where
  | success (x1 : List α) (f1 : α) (g1 : List α)
  | failure (d : LSDiag)
deriving DecidableEq

/-- Euclidean inner product of two vectors. -/
def dot (u v : List α) : α := (List.zipWith (fun a b => a * b) u v).sum

/-- The steepest-descent direction -gradient. -/
def negList (v : List α) : List α := v.map (fun t => -t)

/-- Modelled from the spec: the ITERATING phase of the Minimizer Loop -
per outer iteration compute the steepest-descent direction, fail on a
non-descent direction (directional derivative >= 0) or a line search
failure, stop on the Stop Condition, and otherwise carry the new
point, value and gradient forward; running out of the max_iter fuel is
the EXHAUSTED terminal state. -/
def minRun (sc : StopCondition α) (ls : List α → α → List α → List α → StepOutcome α) :
    ℕ → List α → α → List α → ℕ → ℕ → MinResult α
  | 0, x, f, g, it, calls => ⟨x, f, g, .EXHAUSTED, it, calls⟩
  | fuel + 1, x, f, g, it, calls =>
    let dir := negList g
    if 0 ≤ dot dir g then ⟨x, f, g, .FAILED, it, calls⟩
    else
      match ls x f g dir with
      | .failure _ => ⟨x, f, g, .FAILED, it, calls + 1⟩
      | .success x1 f1 g1 =>
        if stopConverged sc g1 (listSub x1 x) then ⟨x1, f1, g1, .CONVERGED, it + 1, calls + 1⟩
        else minRun sc ls fuel x1 f1 g1 (it + 1) (calls + 1)

/-- Modelled from the spec: run the Minimizer Loop from the evaluated
starting point with an iteration budget of max_iter outer iterations. -/
def minimize (sc : StopCondition α) (ls : List α → α → List α → List α → StepOutcome α)
    (x0 : List α) (f0 : α) (g0 : List α) : MinResult α :=
  minRun sc ls (sc.max_iter.getD 0) x0 f0 g0 0 0

/-- Modelled from the spec: the InvalidConfiguration error raised at
construction. -/
inductive ConfigError where
  | invalidConfiguration
deriving DecidableEq

/-- Modelled from the spec: a fully constructed minimizer. -/
structure Minimizer (α : Type) where
  sc : StopCondition α
  x0 : List α
  g0 : List α
  qtol : α
  qmax : α

/-- An optional threshold is acceptable when unset or strictly positive. -/
def tolPositive (t : Option α) : Bool :=
  match t with
  | none => true
  | some v => decide (0 < v)

/-- At least one stop criterion is enabled. -/
def stopEnabled (sc : StopCondition α) : Bool :=
  sc.grad_rms.isSome || sc.grad_max.isSome || sc.step_rms.isSome ||
  sc.step_max.isSome || sc.max_iter.isSome

/-- All enabled stop-condition thresholds are strictly positive. -/
def scValid (sc : StopCondition α) : Bool :=
  tolPositive sc.grad_rms && tolPositive sc.grad_max &&
  tolPositive sc.step_rms && tolPositive sc.step_max

/-- Modelled from the spec: minimizer construction fails fast with
InvalidConfiguration, nothing partially built, on non-positive
tolerances, mismatched vector dimensions, or no stop criterion enabled
at all. -/
def mkMinimizer (sc : StopCondition α) (x0 g0 : List α) (qtol qmax : α) :
    Except ConfigError (Minimizer α) :=
  if scValid sc && decide (0 < qtol) && decide (0 < qmax) &&
      (x0.length == g0.length) && stopEnabled sc then
    .ok ⟨sc, x0, g0, qtol, qmax⟩
  else .error .invalidConfiguration

end MinimizerModel

/-! ## Closed-form characterization and concrete inputs used by the
theorems below -/

/-- Closed form of the hessian fill after the first r rows: entry (i, j)
holds the force constant at triangular index max(i,j) and offset
min(i,j) once row max(i,j) has been processed, and is still zero
otherwise. -/
def hessSpec (fc : List ℚ) (r : ℕ) : ℕ → ℕ → ℚ := fun i j =>
  if max i j < r then fc.getD (max i j * (max i j + 1) / 2 + min i j) 0 else 0

/-- A formatted checkpoint file that ends inside an N= array: the
scalar field before the failure parses, the array read hits the end of
the file. -/
def fchkBadFile : List String :=
  ["water energy\n",
   "SP RB3LYP 6-31G\n",
   "Charge                                     I                5\n",
   "Coords                                     R   N=           4\n",
   "  1.0  -2.5E+1  3.25\n"]

/-- A LAMMPS dump with one complete two-atom frame. -/
def lmpFile : List String :=
  ["ITEM: TIMESTEP\n", "0\n", "ITEM: NUMBER OF ATOMS\n", "2\n",
   "ITEM: BOX BOUNDS\n", "0 10\n", "0 10\n", "0 10\n",
   "ITEM: ATOMS\n", "1 0.5 1.5\n", "2 2.5 3.5\n"]

/-! ## Theorems -/

theorem hessStep_spec (fc : List ℚ) (n : ℕ) :
    hessStep fc (hessSpec fc n) n (n * (n + 1) / 2) = hessSpec fc (n + 1) := by
  funext i j
  simp only [hessStep, hessSpec]
  by_cases h1 : j = n ∧ i ≤ n
  · rw [if_pos h1, if_pos (by omega : max i j < n + 1),
      (by omega : max i j = n), (by omega : min i j = i)]
  · rw [if_neg h1]
    by_cases h2 : i = n ∧ j ≤ n
    · rw [if_pos h2, if_pos (by omega : max i j < n + 1),
        (by omega : max i j = n), (by omega : min i j = j)]
    · rw [if_neg h2]
      by_cases h3 : max i j < n
      · rw [if_pos h3, if_pos (by omega : max i j < n + 1)]
      · rw [if_neg h3, if_neg (by omega : ¬ max i j < n + 1)]

theorem hessFold (fc : List ℚ) (r : ℕ) :
    (List.range r).foldl
      (fun (p : (ℕ → ℕ → ℚ) × ℕ) row => (hessStep fc p.1 row p.2, p.2 + row + 1))
      (fun _ _ => 0, 0)
      = (hessSpec fc r, r * (r + 1) / 2) := by
  induction r with
  | zero =>
    simp only [List.range_zero, List.foldl_nil, Nat.zero_mul, Nat.zero_div]
    have h1 : (fun _ _ => (0 : ℚ)) = hessSpec fc 0 := by
      funext i j
      simp [hessSpec]
    rw [h1]
  | succ n ih =>
    rw [List.range_succ, List.foldl_append, ih, List.foldl_cons, List.foldl_nil]
    have h2 : (n + 1) * (n + 1 + 1) = n * (n + 1) + 2 * (n + 1) := by ring
    exact Prod.ext (hessStep_spec fc n) (by omega)

/-- C10: for a molecule of N atoms with a flat Cartesian Force
Constants array of length 3N(3N+1)/2, get_hessian returns a 3N-by-3N
matrix equal to its own transpose whose lower triangle, read row by
row, reproduces the force-constant array in order. -/
theorem c10_hessian_symmetric_lower_triangle (N : ℕ) (fc : List ℚ)
    (_hlen : fc.length = 3 * N * (3 * N + 1) / 2) :
    (∀ i j, i < 3 * N → j < 3 * N → getHessian N fc i j = getHessian N fc j i) ∧
    (∀ i j, i < 3 * N → j ≤ i → getHessian N fc i j = fc.getD (i * (i + 1) / 2 + j) 0) := by
  have hH : getHessian N fc = hessSpec fc (3 * N) := by
    unfold getHessian
    rw [hessFold]
  constructor
  · intro i j _ _
    rw [hH]
    simp only [hessSpec]
    rw [Nat.max_comm j i, Nat.min_comm j i]
  · intro i j hi hj
    rw [hH]
    simp only [hessSpec]
    rw [if_pos (by omega : max i j < 3 * N),
      (by omega : max i j = i), (by omega : min i j = j)]

/-- Witness for C10 at N = 1 with a concrete force-constant array. -/
theorem c10_witness :
    ([0, 1, 2, 3, 4, 5] : List ℚ).length = 3 * 1 * (3 * 1 + 1) / 2 ∧
    getHessian 1 [0, 1, 2, 3, 4, 5] 2 1 = getHessian 1 [0, 1, 2, 3, 4, 5] 1 2 ∧
    getHessian 1 [0, 1, 2, 3, 4, 5] 2 1 = ([0, 1, 2, 3, 4, 5] : List ℚ).getD 4 0 :=
  ⟨by decide,
   (c10_hessian_symmetric_lower_triangle 1 [0, 1, 2, 3, 4, 5] (by decide)).1 2 1
     (by decide) (by decide),
   (c10_hessian_symmetric_lower_triangle 1 [0, 1, 2, 3, 4, 5] (by decide)).2 2 1
     (by decide) (by decide)⟩

/-- C8: for every checkpoint file on which _read raises a
FileFormatError, constructing FCHKFile with ignore_errors suppresses
the exception, retains every field read before the failure, and still
runs _analyze on those partial fields; without ignore_errors the same
FileFormatError propagates to the caller. -/
theorem c8_fchk_ignore_errors (filename : String) (lines : List String)
    (labels : Option (List String)) (flds : Fields) (title : String)
    (meta : Option (String × String × String)) (msg : String) (molOpt : Option Mol)
    (hread : fchkRead filename (addDefaultLabels labels) lines
        = ⟨title, meta, flds, some (.fileFormatError msg)⟩)
    (hana : analyze flds title = .ok molOpt) :
    fchkInit filename lines true labels = .ok ⟨title, meta, flds, molOpt⟩ ∧
    fchkInit filename lines false labels = .error (.fileFormatError msg) := by
  constructor
  · unfold fchkInit
    rw [hread]
    simp [hana]
  · unfold fchkInit
    rw [hread]
    rfl

set_option maxRecDepth 10000 in
/-- Witness for C8 on a concrete checkpoint file truncated inside an
array field: the scalar field read before the failure is retained. -/
theorem c8_witness :
    fchkInit "f" fchkBadFile true none
        = .ok ⟨"water energy", some ("SP", "RB3LYP", "6-31G"),
            [("Charge", FValue.iScalar 5)], none⟩ ∧
    fchkInit "f" fchkBadFile false none
        = .error (.fileFormatError "Unexpected end of formatted checkpoint file f") :=
  c8_fchk_ignore_errors "f" fchkBadFile none [("Charge", FValue.iScalar 5)]
    "water energy" (some ("SP", "RB3LYP", "6-31G"))
    "Unexpected end of formatted checkpoint file f" none
    (by with_unfolding_all decide) (by with_unfolding_all decide)

theorem takeFloats_length (k : ℕ) : ∀ (ws : List String) (qs : List ℚ),
    takeFloats ws k = .ok qs → qs.length = k := by
  induction k with
  | zero =>
    intro ws qs h
    simp only [takeFloats] at h
    have h2 : ([] : List ℚ) = qs := Except.ok.inj h
    rw [← h2]
    rfl
  | succ n ih =>
    intro ws qs h
    cases ws with
    | nil => exact absurd h (by simp [takeFloats])
    | cons w ws2 =>
      simp only [takeFloats] at h
      cases hp : pyFloat w with
      | none => rw [hp] at h; exact absurd h (by simp)
      | some q =>
        rw [hp] at h
        cases ht : takeFloats ws2 n with
        | error e => rw [ht] at h; exact absurd h (by simp)
        | ok qs2 =>
          rw [ht] at h
          have h2 : q :: qs2 = qs := Except.ok.inj h
          rw [← h2]
          simp [ih ws2 qs2 ht]

theorem appendCols_length (cols : List (List ℚ)) (vals : List ℚ) :
    (appendCols cols vals).length = min cols.length vals.length :=
  List.length_zipWith _ _ _

theorem appendCols_getElem (cols : List (List ℚ)) (vals : List ℚ) (i : ℕ)
    (h : i < (appendCols cols vals).length) :
    have hc : i < cols.length := by
      have := appendCols_length cols vals
      omega
    have hv : i < vals.length := by
      have := appendCols_length cols vals
      omega
    (appendCols cols vals)[i] = cols[i] ++ [vals[i]] :=
  List.getElem_zipWith

theorem readAtomLines_spec (k : ℕ) : ∀ (c : ℕ) (lines : List String)
    (cols res : List (List ℚ)) (rest : List String) (L : ℕ),
    readAtomLines k c lines cols = .ok (res, rest) →
    cols.length = k → (∀ i (hi : i < cols.length), cols[i].length = L) →
    res.length = k ∧ ∀ i (hi : i < res.length), res[i].length = L + c := by
  intro c
  induction c with
  | zero =>
    intro lines cols res rest L h hk hL
    simp only [readAtomLines] at h
    have h2 : (cols, lines) = (res, rest) := Except.ok.inj h
    have h3 : cols = res := congrArg Prod.fst h2
    subst h3
    exact ⟨hk, fun i hi => by simpa using hL i hi⟩
  | succ n ih =>
    intro lines cols res rest L h hk hL
    cases lines with
    | nil => exact absurd h (by simp [readAtomLines])
    | cons l ls =>
      simp only [readAtomLines] at h
      cases ht : takeFloats ((pySplit l).drop 1) k with
      | error e => rw [ht] at h; exact absurd h (by simp)
      | ok vals =>
        rw [ht] at h
        have hvals : vals.length = k := takeFloats_length k _ _ ht
        have hlen : (appendCols cols vals).length = k := by
          rw [appendCols_length]
          omega
        have hcols : ∀ i (hi : i < (appendCols cols vals).length),
            (appendCols cols vals)[i].length = L + 1 := by
          intro i hi
          rw [appendCols_getElem cols vals i hi]
          have hic : i < cols.length := by omega
          simp [hL i hic]
        have hres := ih ls (appendCols cols vals) res rest (L + 1) h hlen hcols
        refine ⟨hres.1, fun i hi => ?_⟩
        rw [hres.2 i hi]
        omega

/-- C9: num_atoms is fixed at construction from the first ITEM: NUMBER
OF ATOMS section; every frame _read_frame returns describes exactly
num_atoms atoms in each field column; a frame declaring a different
atom count raises FileFormatError instead of returning a frame. -/
theorem c9_lammps_fixed_atom_count :
    (∀ (pre post : List String) (s : String) (n : Int),
      "ITEM: NUMBER OF ATOMS\n" ∉ pre → pyInt s = some n →
      findNumAtoms (pre ++ "ITEM: NUMBER OF ATOMS\n" :: s :: post) = .ok n) ∧
    (∀ (units : List ℚ) (numAtoms : Int) (lines : List String) (fr : LFrame)
      (rest : List String),
      readFrame units numAtoms lines = .ok (fr, rest) →
      fr.fields.length = units.length ∧
        ∀ i (hi : i < fr.fields.length), fr.fields[i].length = numAtoms.toNat) ∧
    (∀ (units : List ℚ) (numAtoms st m : Int) (s1 s4 : String) (post : List String),
      pyInt s1 = some st → pyInt s4 = some m → m ≠ numAtoms →
      readFrame units numAtoms
          ("ITEM: TIMESTEP\n" :: s1 :: "ITEM: NUMBER OF ATOMS\n" :: s4 :: post)
        = .error (.fileFormatError "A variable number of atoms is not supported.")) := by
  refine ⟨?_, ?_, ?_⟩
  · intro pre post s n hpre hs
    induction pre with
    | nil =>
      simp [findNumAtoms, hs]
    | cons p ps ih =>
      have hp : p ≠ "ITEM: NUMBER OF ATOMS\n" := by
        intro hp
        exact hpre (by rw [hp]; exact List.mem_cons_self _ _)
      have hps : "ITEM: NUMBER OF ATOMS\n" ∉ ps := fun hm => hpre (List.mem_cons_of_mem _ hm)
      simp only [List.cons_append, findNumAtoms, if_neg hp]
      exact ih hps
  · intro units numAtoms lines fr rest h
    unfold readFrame at h
    repeat' split at h
    all_goals try exact Except.noConfusion h
    rename_i cols rest2 heq
    injection h with h2
    rw [Prod.mk.injEq] at h2
    obtain ⟨h3, h4⟩ := h2
    subst h3
    have hra := readAtomLines_spec units.length numAtoms.toNat _ _ _ _ 0 heq
      (by simp) (by simp)
    have h5 : cols.length = units.length := hra.1
    constructor
    · simp only [List.length_zipWith]
      omega
    · intro i hi
      simp only [List.length_zipWith] at hi
      simp only [List.getElem_zipWith, List.length_map]
      have hic : i < cols.length := by omega
      have := hra.2 i hic
      omega
  · intro units numAtoms st m s1 s4 post hs1 hs4 hm
    simp only [readFrame, hs1, hs4]
    rw [if_neg (by decide), if_neg (by decide), if_pos hm]

set_option maxRecDepth 10000 in
/-- Witness for C9 on a concrete dump file: the scanned atom count, a
returned two-atom frame, and a rejected frame declaring three atoms. -/
theorem c9_witness :
    findNumAtoms lmpFile = .ok 2 ∧
    ((⟨0, [[1/2, 5/2], [3, 7]]⟩ : LFrame).fields.length = ([1, 2] : List ℚ).length) ∧
    readFrame [1, 2] 2 ["ITEM: TIMESTEP\n", "10\n", "ITEM: NUMBER OF ATOMS\n", "3\n"]
      = .error (.fileFormatError "A variable number of atoms is not supported.") :=
  ⟨c9_lammps_fixed_atom_count.1 ["ITEM: TIMESTEP\n", "0\n"]
      (lmpFile.drop 4) "2\n" 2 (by decide) (by with_unfolding_all decide),
   (c9_lammps_fixed_atom_count.2.1 [1, 2] 2 lmpFile ⟨0, [[1/2, 5/2], [3, 7]]⟩ []
      (by with_unfolding_all decide)).1,
   c9_lammps_fixed_atom_count.2.2 [1, 2] 2 10 3 "10\n" "3\n" []
      (by with_unfolding_all decide) (by with_unfolding_all decide) (by decide)⟩

theorem addUnit_length {α : Type} [LinearOrderedField α] (x : List α) (i : ℕ) (h : α) :
    (addUnit x i h).length = x.length :=
  List.length_set x i _

theorem numGradientCounted_foldl {α : Type} [LinearOrderedField α] (f : List α → α)
    (x : List α) (eps : α) : ∀ (l : List ℕ) (acc : List α) (c : ℕ),
    l.foldl (fun acc i =>
      let p := evalCount f (addUnit x i eps) acc.2
      let m := evalCount f (addUnit x i (-eps)) p.2
      (acc.1 ++ [(p.1 - m.1) / (2 * eps)], m.2)) (acc, c)
      = (acc ++ l.map (fun i => (f (addUnit x i eps) - f (addUnit x i (-eps))) / (2 * eps)),
        c + 2 * l.length) := by
  intro l
  induction l with
  | nil => intro acc c; simp
  | cons i t ih =>
    intro acc c
    simp only [List.foldl_cons, List.map_cons]
    rw [ih]
    refine Prod.ext ?_ ?_
    · simp [evalCount]
    · simp only [evalCount, List.length_cons]
      omega

theorem sepQuad_central_difference {α : Type} [LinearOrderedField α]
    (a b : List α) (c0 : α) (x : List α) (eps : α) (heps : eps ≠ 0)
    (i : ℕ) (hi : i < x.length) :
    (sepQuad a b c0 (addUnit x i eps) - sepQuad a b c0 (addUnit x i (-eps))) / (2 * eps)
      = 2 * a.getD i 0 * x.getD i 0 + b.getD i 0 := by
  have hset_ne : ∀ (h : α) (j : ℕ), j ≠ i → (addUnit x i h).getD j 0 = x.getD j 0 := by
    intro h j hji
    unfold addUnit
    rw [List.getD_eq_getElem?_getD, List.getElem?_set_ne (Ne.symm hji),
      ← List.getD_eq_getElem?_getD]
  have hset_eq : ∀ (h : α), (addUnit x i h).getD i 0 = x.getD i 0 + h := by
    intro h
    unfold addUnit
    rw [List.getD_eq_getElem?_getD, List.getElem?_set_eq_of_lt _ hi]
    rfl
  simp only [sepQuad, addUnit_length]
  rw [show ∀ s1 s2 : α, (c0 + s1) - (c0 + s2) = s1 - s2 from fun s1 s2 => by ring,
    ← Finset.sum_sub_distrib,
    Finset.sum_eq_single i
      (fun j _ hji => by rw [hset_ne eps j hji, hset_ne (-eps) j hji]; ring)
      (fun hni => absurd (Finset.mem_range.mpr hi) hni),
    hset_eq, hset_eq]
  field_simp
  ring

/-- C4: the Numerical Differentiator computes the central-difference
formula g_i = (f(x + eps e_i) - f(x - eps e_i)) / (2 eps) in every
coordinate, performs exactly 2n objective evaluations, and on a
function with a known analytic gradient (a separable quadratic, where
the central difference is exact, so the error is zero and in
particular O(eps squared)) reproduces that gradient. -/
theorem c4_numerical_differentiator {α : Type} [LinearOrderedField α]
    (f : List α → α) (x : List α) (eps : α) (heps : 0 < eps)
    (a b : List α) (c0 : α) :
    (∀ i, i < x.length →
      (numGradient f x eps).getD i 0
        = (f (addUnit x i eps) - f (addUnit x i (-eps))) / (2 * eps)) ∧
    (numGradientCounted f x eps).2 = 2 * x.length ∧
    (numGradientCounted f x eps).1 = numGradient f x eps ∧
    numGradient (sepQuad a b c0) x eps = anaGradSepQuad a b x := by
  refine ⟨?_, ?_, ?_, ?_⟩
  · intro i hi
    simp [numGradient, List.getD_eq_getElem?_getD, List.getElem?_map,
      List.getElem?_range hi]
  · unfold numGradientCounted
    rw [numGradientCounted_foldl]
    simp
  · unfold numGradientCounted numGradient
    rw [numGradientCounted_foldl]
    simp
  · unfold numGradient anaGradSepQuad
    refine List.map_congr_left (fun i hi => ?_)
    rw [List.mem_range] at hi
    exact sepQuad_central_difference a b c0 x eps (ne_of_gt heps) i hi

/-- Witness for C4: the counted differentiator on a two-dimensional
separable quadratic performs four evaluations and reproduces the
analytic gradient exactly. -/
theorem c4_witness :
    (0 : ℚ) < 1/2 ∧
    (numGradientCounted (sepQuad [3, 4] [5, 6] 7) [(10 : ℚ), 20] (1/2)).2
      = 2 * ([(10 : ℚ), 20]).length ∧
    numGradient (sepQuad [3, 4] [5, 6] 7) [(10 : ℚ), 20] (1/2)
      = anaGradSepQuad [3, 4] [5, 6] [(10 : ℚ), 20] :=
  ⟨by norm_num,
   (c4_numerical_differentiator (sepQuad [3, 4] [5, 6] 7) [(10 : ℚ), 20] (1/2)
     (by norm_num) [3, 4] [5, 6] 7).2.1,
   (c4_numerical_differentiator (sepQuad [3, 4] [5, 6] 7) [(10 : ℚ), 20] (1/2)
     (by norm_num) [3, 4] [5, 6] 7).2.2.2⟩

theorem meanSq_nonneg (v : List ℚ) : 0 ≤ meanSq v := by
  unfold meanSq
  apply div_nonneg
  · apply List.sum_nonneg
    intro y hy
    obtain ⟨t, _, rfl⟩ := List.mem_map.mp hy
    exact mul_self_nonneg t
  · exact Nat.cast_nonneg _

theorem rmsBelow_iff (t : ℚ) (v : List ℚ) :
    rmsBelow (some t) v = true ↔ Real.sqrt ((meanSq v : ℚ) : ℝ) < (t : ℝ) := by
  simp only [rmsBelow, decide_eq_true_eq]
  constructor
  · rintro ⟨ht, hm⟩
    rw [Real.sqrt_lt' (by exact_mod_cast ht), sq]
    exact_mod_cast hm
  · intro h
    have ht : (0 : ℝ) < (t : ℝ) := lt_of_le_of_lt (Real.sqrt_nonneg _) h
    refine ⟨by exact_mod_cast ht, ?_⟩
    rw [Real.sqrt_lt' ht, sq] at h
    exact_mod_cast h

/-- C2: the Stop Condition reports convergence exactly when at least
one enabled threshold among grad_rms, grad_max, step_rms, step_max is
satisfied - the gradient RMS sqrt(mean g_i^2) or step RMS on x1 - x0
below its threshold, or the gradient or step max-absolute-component
below its threshold - and disabled thresholds never contribute. -/
theorem c2_stop_condition (sc : StopCondition ℚ) (g x1 x0 : List ℚ) :
    stopConverged sc g (listSub x1 x0) = true ↔
      ((∃ t, sc.grad_rms = some t ∧ Real.sqrt ((meanSq g : ℚ) : ℝ) < (t : ℝ)) ∨
       (∃ t, sc.grad_max = some t ∧ maxAbs g < t) ∨
       (∃ t, sc.step_rms = some t ∧
         Real.sqrt ((meanSq (listSub x1 x0) : ℚ) : ℝ) < (t : ℝ)) ∨
       (∃ t, sc.step_max = some t ∧ maxAbs (listSub x1 x0) < t)) := by
  have hmax : ∀ (o : Option ℚ) (v : List ℚ),
      maxBelow o v = true ↔ ∃ t, o = some t ∧ maxAbs v < t := by
    intro o v
    cases o <;> simp [maxBelow]
  have hrms : ∀ (o : Option ℚ) (v : List ℚ),
      rmsBelow o v = true ↔ ∃ t, o = some t ∧ Real.sqrt ((meanSq v : ℚ) : ℝ) < (t : ℝ) := by
    intro o v
    cases o with
    | none => simp [rmsBelow]
    | some t => simp [rmsBelow_iff]
  unfold stopConverged
  simp only [Bool.or_eq_true]
  rw [hrms, hmax, hrms, hmax, or_assoc, or_assoc]

theorem goldenContract_le {α : Type} [LinearOrderedField α] (fl : α → α) (f0 : α) :
    ∀ (fuel : ℕ) (q : α) (p : α × α), goldenContract fl f0 fuel q = some p → p.2 ≤ f0 := by
  intro fuel
  induction fuel with
  | zero => intro q p h; exact absurd h (by simp [goldenContract])
  | succ n ih =>
    intro q p h
    simp only [goldenContract] at h
    split at h
    · next hle =>
      have h2 := Option.some.inj h
      rw [← h2]
      exact hle
    · exact ih _ p h

theorem goldenExpand_le {α : Type} [LinearOrderedField α] (fl : α → α) (qmax : α) :
    ∀ (fuel : ℕ) (a b : α × α) (br : Bracket α),
      goldenExpand fl qmax fuel a b = some br → br.fb ≤ b.2 := by
  intro fuel
  induction fuel with
  | zero => intro a b br h; exact absurd h (by simp [goldenExpand])
  | succ n ih =>
    intro a b br h
    simp only [goldenExpand] at h
    split at h
    · exact absurd h (by simp)
    · split at h
      · have h2 := Option.some.inj h
        rw [← h2]
      · next hge =>
        exact le_trans (ih b _ br h) (not_lt.mp hge)

theorem goldenBracket_le {α : Type} [LinearOrderedField α] (fl : α → α)
    (f0 q0 qmax : α) (fuel : ℕ) (br : Bracket α)
    (h : goldenBracket fl f0 q0 qmax fuel = some br) : br.fb ≤ f0 := by
  simp only [goldenBracket] at h
  split at h
  · next hle => exact le_trans (goldenExpand_le fl qmax fuel _ _ br h) hle
  · split at h
    · exact absurd h (by simp)
    · next p hp =>
      have h2 := Option.some.inj h
      rw [← h2]
      exact goldenContract_le fl f0 fuel _ p hp

theorem goldenStep_fb_le {α : Type} [LinearOrderedField α] (fl : α → α) (r : α)
    (br : Bracket α) : (goldenStep fl r br).fb ≤ br.fb := by
  dsimp only [goldenStep]
  split_ifs with h1 h2 h3 <;>
    first | exact le_of_lt h2 | exact le_of_lt h3 | exact le_refl _

theorem goldenReduce_fb_le {α : Type} [LinearOrderedField α] (fl : α → α) (r qtol : α) :
    ∀ (fuel : ℕ) (br : Bracket α), (goldenReduce fl r qtol fuel br).1.fb ≤ br.fb := by
  intro fuel
  induction fuel with
  | zero => intro br; exact le_refl _
  | succ n ih =>
    intro br
    simp only [goldenReduce]
    split
    · exact le_refl _
    · exact le_trans (ih (goldenStep fl r br)) (goldenStep_fb_le fl r br)

/-- C1: each of the three line-search strategies either returns a value
f1 with f1 <= f0 + noise (the numerical-noise allowance) or signals a
LineSearchFailure; no strategy ever returns a step that increases the
objective beyond the allowance. -/
theorem c1_line_search_descent {α : Type} [LinearOrderedField α]
    (fl fld : α → α) (f0 r q0 qtol qmax eps noise qinit : α) (maxIter : ℕ)
    (hnoise : 0 ≤ noise) :
    (∀ q f1, goldenSearch fl f0 r q0 qtol qmax maxIter = .success q f1 →
      f1 ≤ f0 + noise) ∧
    (∀ q f1, newtonSearch fl fld f0 eps qtol qmax noise maxIter = .success q f1 →
      f1 ≤ f0 + noise) ∧
    (∀ q f1, newtonGSearch fl fld f0 qinit qtol qmax noise maxIter = .success q f1 →
      f1 ≤ f0 + noise) := by
  refine ⟨?_, ?_, ?_⟩
  · intro q f1 h
    unfold goldenSearch at h
    split at h
    · exact absurd h (by simp)
    · next br hb =>
      injection h with hq hf
      rw [← hf]
      have h1 := goldenReduce_fb_le fl r qtol maxIter br
      have h2 := goldenBracket_le fl f0 q0 qmax maxIter br hb
      linarith
  · intro q f1 h
    simp only [newtonSearch] at h
    split at h
    · next hle =>
      injection h with hq hf
      rw [← hf]
      exact hle
    · exact absurd h (by simp)
  · intro q f1 h
    simp only [newtonGSearch] at h
    split at h
    · next hle =>
      injection h with hq hf
      rw [← hf]
      exact hle
    · exact absurd h (by simp)

set_option maxRecDepth 4000 in
/-- Witness for C1: a concrete successful golden-section search whose
returned value respects the descent bound with zero noise allowance. -/
theorem c1_witness :
    goldenSearch (fun q => (q - 1) * (q - 1)) 1 (2/3 : ℚ) 1 5 3 4 = .success 1 0 ∧
    (0 : ℚ) ≤ 1 + 0 :=
  ⟨by with_unfolding_all decide,
   (c1_line_search_descent (fun q => (q - 1) * (q - 1)) id 1 (2/3 : ℚ) 1 5 3 0 0 0 4
     (le_refl 0)).1 1 0 (by with_unfolding_all decide)⟩

theorem goldenExpand_none {α : Type} [LinearOrderedField α] (fl : α → α) (qmax : α)
    (hmono : ∀ p q : α, 0 ≤ p → p ≤ q → fl q ≤ fl p) :
    ∀ (fuel : ℕ) (a b : α × α), 0 ≤ b.1 → b.2 = fl b.1 →
      goldenExpand fl qmax fuel a b = none := by
  intro fuel
  induction fuel with
  | zero => intro a b _ _; rfl
  | succ n ih =>
    intro a b hb0 hbf
    simp only [goldenExpand]
    split
    · rfl
    · rw [if_neg (not_lt.mpr (hbf ▸ hmono b.1 (2 * b.1) hb0 (by linarith)))]
      exact ih b (2 * b.1, fl (2 * b.1)) (by dsimp only; linarith) rfl

theorem goldenReduce_stops {α : Type} [LinearOrderedField α] (fl : α → α) (r qtol : α) :
    ∀ (fuel : ℕ) (br : Bracket α),
      (goldenReduce fl r qtol fuel br).1.qc - (goldenReduce fl r qtol fuel br).1.qa < qtol
        ∨ (goldenReduce fl r qtol fuel br).2 = fuel := by
  intro fuel
  induction fuel with
  | zero => intro br; right; rfl
  | succ n ih =>
    intro br
    simp only [goldenReduce]
    split
    · next hw => left; exact hw
    · rcases ih (goldenStep fl r br) with h | h
      · left; exact h
      · right; simp [h]

/-- C5: the Golden-Section line search with the golden ratio
(sqrt 5 - 1)/2 signals LineSearchFailure with the no-minimum-bracketed
diagnostic whenever the objective decreases monotonically across the
whole allowed range, its golden-ratio reduction phase stops only once
the bracket width falls below qtol or exactly max_iter interior
evaluations have been spent, and every interior probe point lies
strictly inside the current bracket. -/
theorem c5_golden_section (fl : ℝ → ℝ) (f0 q0 qtol qmax : ℝ) (maxIter : ℕ)
    (hmono : ∀ p q : ℝ, 0 ≤ p → p ≤ q → fl q ≤ fl p)
    (hf0 : f0 = fl 0) (hq0 : 0 < q0) :
    goldenSearch fl f0 ((Real.sqrt 5 - 1) / 2) q0 qtol qmax maxIter
        = .failure .noBracket ∧
    (∀ (fuel : ℕ) (br : Bracket ℝ),
      (goldenReduce fl ((Real.sqrt 5 - 1) / 2) qtol fuel br).1.qc
          - (goldenReduce fl ((Real.sqrt 5 - 1) / 2) qtol fuel br).1.qa < qtol
        ∨ (goldenReduce fl ((Real.sqrt 5 - 1) / 2) qtol fuel br).2 = fuel) ∧
    (∀ br : Bracket ℝ, br.qa < br.qb → br.qb < br.qc →
      br.qa < goldenProbe ((Real.sqrt 5 - 1) / 2) br ∧
        goldenProbe ((Real.sqrt 5 - 1) / 2) br < br.qc) := by
  have h5a : (2 : ℝ) < Real.sqrt 5 := by
    have h4 : (2 : ℝ) = Real.sqrt 4 := by
      rw [show (4 : ℝ) = 2 ^ 2 by norm_num, Real.sqrt_sq (by norm_num)]
    rw [h4]
    exact Real.sqrt_lt_sqrt (by norm_num) (by norm_num)
  have h5b : Real.sqrt 5 < 3 := by
    rw [Real.sqrt_lt' (by norm_num)]
    norm_num
  have hr1 : 0 < 1 - (Real.sqrt 5 - 1) / 2 := by linarith
  have hr2 : 1 - (Real.sqrt 5 - 1) / 2 < 1 := by linarith
  refine ⟨?_, goldenReduce_stops fl _ qtol, ?_⟩
  · have hle : fl q0 ≤ f0 := by
      rw [hf0]
      exact hmono 0 q0 le_rfl (le_of_lt hq0)
    unfold goldenSearch
    simp only [goldenBracket]
    rw [if_pos hle,
      goldenExpand_none fl qmax hmono maxIter (0, f0) (q0, fl q0) (le_of_lt hq0) rfl]
  · intro br h1 h2
    unfold goldenProbe
    split_ifs with hcase
    · constructor
      · have hp : 0 < (1 - (Real.sqrt 5 - 1) / 2) * (br.qc - br.qb) :=
          mul_pos hr1 (by linarith)
        linarith
      · have hp : (1 - (Real.sqrt 5 - 1) / 2) * (br.qc - br.qb)
            < 1 * (br.qc - br.qb) :=
          mul_lt_mul_of_pos_right hr2 (by linarith)
        linarith
    · constructor
      · have hp : (1 - (Real.sqrt 5 - 1) / 2) * (br.qb - br.qa)
            < 1 * (br.qb - br.qa) :=
          mul_lt_mul_of_pos_right hr2 (by linarith)
        linarith
      · have hp : 0 < (1 - (Real.sqrt 5 - 1) / 2) * (br.qb - br.qa) :=
          mul_pos hr1 (by linarith)
        linarith

/-- Witness for C5: a monotonically decreasing objective over the reals
makes the golden-section search fail with the no-bracket diagnostic. -/
theorem c5_witness :
    goldenSearch (fun q : ℝ => -q) 0 ((Real.sqrt 5 - 1) / 2) (1/2) (1/100) 1 3
        = .failure .noBracket :=
  (c5_golden_section (fun q : ℝ => -q) 0 (1/2) (1/100) 1 3
    (fun p q _ hpq => by dsimp only; linarith)
    (by norm_num) (by norm_num)).1

theorem dot_negList {α : Type} [LinearOrderedField α] :
    ∀ v : List α, dot (negList v) v = -dot v v := by
  intro v
  induction v with
  | nil => simp [dot, negList]
  | cons a t ih =>
    show -a * a + dot (negList t) t = -(a * a + dot t t)
    rw [ih]
    ring

theorem minRun_exhausts {α : Type} [LinearOrderedField α] (sc : StopCondition α)
    (ls : List α → α → List α → List α → StepOutcome α)
    (hstop : ∀ g dx, stopConverged sc g dx = false)
    (hls : ∀ x f g dir, ∃ x1 f1 g1, ls x f g dir = .success x1 f1 g1 ∧ 0 < dot g1 g1) :
    ∀ (fuel : ℕ) (x : List α) (f : α) (g : List α) (it calls : ℕ), 0 < dot g g →
      (minRun sc ls fuel x f g it calls).state = MState.EXHAUSTED ∧
      (minRun sc ls fuel x f g it calls).iters = it + fuel ∧
      (minRun sc ls fuel x f g it calls).lsCalls = calls + fuel := by
  intro fuel
  induction fuel with
  | zero => intro x f g it calls _; exact ⟨rfl, rfl, rfl⟩
  | succ n ih =>
    intro x f g it calls hg
    have hdir : ¬ (0 ≤ dot (negList g) g) := by
      rw [dot_negList]
      linarith
    obtain ⟨x1, f1, g1, hls1, hg1⟩ := hls x f g (negList g)
    simp only [minRun, if_neg hdir, hls1, hstop, Bool.false_eq_true, if_false]
    have h := ih x1 f1 g1 (it + 1) (calls + 1) hg1
    exact ⟨h.1, by rw [h.2.1]; omega, by rw [h.2.2]; omega⟩

/-- C3: a run whose max_iter outer iterations all complete without any
enabled tolerance being satisfied terminates in the EXHAUSTED terminal
state - reported in the result, distinct from CONVERGED - after
exactly max_iter iterations and max_iter line searches; in particular
with max_iter at most 1 no line search beyond the first is attempted,
and with max_iter = 0 none at all. -/
theorem c3_exhaustion {α : Type} [LinearOrderedField α] (sc : StopCondition α)
    (ls : List α → α → List α → List α → StepOutcome α)
    (x0 : List α) (f0 : α) (g0 : List α) (n : ℕ)
    (hmax : sc.max_iter = some n)
    (hstop : ∀ g dx, stopConverged sc g dx = false)
    (hls : ∀ x f g dir, ∃ x1 f1 g1, ls x f g dir = .success x1 f1 g1 ∧ 0 < dot g1 g1)
    (hg0 : 0 < dot g0 g0) :
    (minimize sc ls x0 f0 g0).state = MState.EXHAUSTED ∧
    (minimize sc ls x0 f0 g0).state ≠ MState.CONVERGED ∧
    (minimize sc ls x0 f0 g0).iters = n ∧
    (minimize sc ls x0 f0 g0).lsCalls = n ∧
    (n ≤ 1 → (minimize sc ls x0 f0 g0).lsCalls ≤ 1) := by
  have h := minRun_exhausts sc ls hstop hls (sc.max_iter.getD 0) x0 f0 g0 0 0 hg0
  unfold minimize
  rw [hmax] at h
  simp only [Option.getD_some] at h
  rw [hmax]
  simp only [Option.getD_some]
  refine ⟨h.1, ?_, by rw [h.2.1]; omega, by rw [h.2.2]; omega, fun hn => by rw [h.2.2]; omega⟩
  rw [h.1]
  intro hc
  exact MState.noConfusion hc

/-- Witness for C3: a two-iteration budget with a stop condition that
never fires runs to EXHAUSTED with both iterations and both line
searches spent. -/
theorem c3_witness :
    (minimize (α := ℚ) ⟨none, none, none, none, some 2⟩
        (fun x f _ _ => .success x f [1]) [0] 5 [1]).state = MState.EXHAUSTED ∧
    (minimize (α := ℚ) ⟨none, none, none, none, some 2⟩
        (fun x f _ _ => .success x f [1]) [0] 5 [1]).iters = 2 :=
  have h := c3_exhaustion (α := ℚ) ⟨none, none, none, none, some 2⟩
    (fun x f _ _ => .success x f [1]) [0] 5 [1] 2 rfl
    (fun _ _ => rfl)
    (fun x f _ _ => ⟨x, f, [1], rfl, by with_unfolding_all decide⟩)
    (by with_unfolding_all decide)
  ⟨h.1, h.2.2.1⟩

theorem minRun_terminal {α : Type} [LinearOrderedField α] (sc : StopCondition α)
    (ls : List α → α → List α → List α → StepOutcome α) :
    ∀ (fuel : ℕ) (x : List α) (f : α) (g : List α) (it calls : ℕ),
      (minRun sc ls fuel x f g it calls).state = MState.CONVERGED ∨
      (minRun sc ls fuel x f g it calls).state = MState.EXHAUSTED ∨
      (minRun sc ls fuel x f g it calls).state = MState.FAILED := by
  intro fuel
  induction fuel with
  | zero => intro x f g it calls; right; left; rfl
  | succ n ih =>
    intro x f g it calls
    by_cases hdir : 0 ≤ dot (negList g) g
    · right; right
      simp only [minRun, if_pos hdir]
    · cases hls2 : ls x f g (negList g) with
      | failure d =>
        right; right
        simp only [minRun, if_neg hdir, hls2]
      | success x1 f1 g1 =>
        by_cases hsc : stopConverged sc g1 (listSub x1 x) = true
        · left
          simp only [minRun, if_neg hdir, hls2, if_pos hsc]
        · have hterm := ih x1 f1 g1 (it + 1) (calls + 1)
          simp only [minRun, if_neg hdir, hls2, if_neg hsc]
          exact hterm

/-- C6: an invalid configuration - a non-positive enabled tolerance,
mismatched vector dimensions, or no stop criterion enabled at all -
makes construction fail immediately with InvalidConfiguration and
nothing built; once iteration starts the caller always receives one of
the terminal tags CONVERGED, EXHAUSTED or FAILED, and both a line
search failure and a detected non-descent direction (directional
derivative at least zero) terminate the run as FAILED. -/
theorem c6_error_propagation {α : Type} [LinearOrderedField α] (sc : StopCondition α)
    (x0 g0 : List α) (qtol qmax : α)
    (ls : List α → α → List α → List α → StepOutcome α) (f0 : α) :
    (scValid sc = false → mkMinimizer sc x0 g0 qtol qmax = .error .invalidConfiguration) ∧
    (x0.length ≠ g0.length → mkMinimizer sc x0 g0 qtol qmax = .error .invalidConfiguration) ∧
    (stopEnabled sc = false → mkMinimizer sc x0 g0 qtol qmax = .error .invalidConfiguration) ∧
    ((minimize sc ls x0 f0 g0).state = MState.CONVERGED ∨
      (minimize sc ls x0 f0 g0).state = MState.EXHAUSTED ∨
      (minimize sc ls x0 f0 g0).state = MState.FAILED) ∧
    (∀ n, sc.max_iter = some (n + 1) →
      (∀ x f g dir, ∃ d, ls x f g dir = .failure d) →
      (minimize sc ls x0 f0 g0).state = MState.FAILED) ∧
    (∀ n, sc.max_iter = some (n + 1) → 0 ≤ dot (negList g0) g0 →
      (minimize sc ls x0 f0 g0).state = MState.FAILED) := by
  refine ⟨?_, ?_, ?_, minRun_terminal sc ls (sc.max_iter.getD 0) x0 f0 g0 0 0, ?_, ?_⟩
  · intro h
    simp [mkMinimizer, h]
  · intro h
    simp [mkMinimizer, h]
  · intro h
    simp [mkMinimizer, h]
  · intro n hn hfail
    unfold minimize
    rw [hn]
    simp only [Option.getD_some]
    by_cases hdir : 0 ≤ dot (negList g0) g0
    · simp only [minRun, if_pos hdir]
    · obtain ⟨d, hd⟩ := hfail x0 f0 g0 (negList g0)
      simp only [minRun, if_neg hdir, hd]
  · intro n hn hdir
    unfold minimize
    rw [hn]
    simp only [Option.getD_some, minRun, if_pos hdir]

/-- Witness for C6: a zero grad_rms tolerance is rejected at
construction, and a line search that always fails drives a one-
iteration run to FAILED. -/
theorem c6_witness :
    mkMinimizer (α := ℚ) ⟨some 0, none, none, none, some 5⟩ [0] [0] 1 1
        = .error .invalidConfiguration ∧
    (minimize (α := ℚ) ⟨none, none, none, none, some 1⟩
        (fun _ _ _ _ => .failure .noBracket) [0] 5 [1]).state = MState.FAILED :=
  ⟨(c6_error_propagation (α := ℚ) ⟨some 0, none, none, none, some 5⟩ [0] [0] 1 1
      (fun _ _ _ _ => .failure .noBracket) 0).1 (by with_unfolding_all decide),
   (c6_error_propagation (α := ℚ) ⟨none, none, none, none, some 1⟩ [0] [1] 1 1
      (fun _ _ _ _ => .failure .noBracket) 5).2.2.2.2.1 0 rfl
      (fun _ _ _ _ => ⟨.noBracket, rfl⟩)⟩

end Molmod
